import Mathlib

/-!
Verification of the URL-templating and request-dispatch core of the
`everhour-api-client` repository (`main.ts`, bundled in `build_npm.ts`:
class `EverhourApiClient` with `createUrl` and `apiRequest`, plus the
`RequiredError` class).

Modelling conventions (shallow embedding):
* JavaScript strings are modelled as `List Char` (abbreviated `Str`).
* JavaScript runtime values that can sit in a parameter record are modelled
  by `JsValue` (string / number / boolean); an absent key or an `undefined`
  value is modelled by `Option` (`none`).  JS numbers are modelled by `Int`,
  which matches JS `String(n)` rendering on the integral values the client
  deals with.
* A JS object used as a record is modelled as an association list in
  insertion order; `Object.entries` is the list itself and property read is
  `lookupA` (first match).
* The platform pieces that are not code of this repository — `fetch`, the
  WHATWG `URL` constructor and `response.json()` — are kept at the boundary:
  `createUrl` returns the `(relative, base)` pair that the source hands to
  `new URL(path, basePath)`, `apiRequest` takes the transport as a function
  argument, and the JSON decoder of a response body is a function argument.
* `encodeURIComponent`, `URLSearchParams` serialization (`toString`) and
  `JSON.stringify` are implemented from their ECMAScript / WHATWG
  specifications, because the source's observable output depends on them.
-/

namespace Everhour

/-- JavaScript strings, modelled as lists of characters. -/
abbrev Str := List Char

/-- The single-quote character (U+0027), written via its code point. -/
def apos : Char := Char.ofNat 39

/-- The double-quote character (U+0022). -/
def dquote : Char := Char.ofNat 34

/-- The backslash character (U+005C). -/
def bslash : Char := Char.ofNat 92

/-- Uppercase hexadecimal digit for a value below 16 (used by percent
encoding, which prints uppercase hex). -/
def hexDigit (n : Nat) : Char :=
  if n < 10 then Char.ofNat (48 + n) else Char.ofNat (55 + n % 16)

/-- Lowercase hexadecimal digit for a value below 16 (used by
`JSON.stringify` control-character escapes, which print lowercase hex). -/
def hexDigitLower (n : Nat) : Char :=
  if n < 10 then Char.ofNat (48 + n) else Char.ofNat (87 + n % 16)

/-- UTF-8 bytes of a Unicode code point, as natural numbers below 256. -/
def utf8Bytes (n : Nat) : List Nat :=
  if n < 128 then [n]
  else if n < 2048 then [192 + n / 64, 128 + n % 64]
  else if n < 65536 then [224 + n / 4096, 128 + n / 64 % 64, 128 + n % 64]
  else [240 + n / 262144, 128 + n / 4096 % 64, 128 + n / 64 % 64, 128 + n % 64]

/-- Percent-encoding of one byte: a percent sign followed by two uppercase
hex digits. -/
def percentByte (b : Nat) : Str :=
  ['%', hexDigit (b / 16 % 16), hexDigit (b % 16)]

/-- Percent-encoding of all UTF-8 bytes of one code point. -/
def percentChar (c : Char) : Str :=
  ((utf8Bytes c.toNat).map percentByte).flatten

/-- Characters left unescaped by ECMAScript `encodeURIComponent`:
`A-Z a-z 0-9 - _ . ! ~ * ' ( )`. -/
def isUriUnreserved (c : Char) : Bool :=
  c.isAlphanum || c == '-' || c == '_' || c == '.' || c == '!' ||
    c == '~' || c == '*' || c == apos || c == '(' || c == ')'

/-- ECMAScript `encodeURIComponent`: keep unreserved characters, percent
encode the UTF-8 bytes of everything else. -/
def encodeURIComponent : Str → Str
  | [] => []
  | c :: rest =>
    (if isUriUnreserved c then [c] else percentChar c) ++ encodeURIComponent rest

/-- Characters kept verbatim by the `application/x-www-form-urlencoded`
serializer used by `URLSearchParams.toString`: `A-Z a-z 0-9 * - . _`. -/
def isFormSafe (c : Char) : Bool :=
  c.isAlphanum || c == '*' || c == '-' || c == '.' || c == '_'

/-- One character under the `application/x-www-form-urlencoded` serializer:
safe characters kept, space becomes `+`, everything else percent-encoded. -/
def formEncodeChar (c : Char) : Str :=
  if isFormSafe c then [c]
  else if c == ' ' then ['+']
  else percentChar c

/-- `application/x-www-form-urlencoded` escaping of a whole string. -/
def formEncode : Str → Str
  | [] => []
  | c :: rest => formEncodeChar c ++ formEncode rest

/-- WHATWG `URLSearchParams.toString`: each stored name/value pair is
form-urlencoded and joined with `=`, the pairs joined with `&`. -/
def serializeSearchParams (pairs : List (Str × Str)) : Str :=
  List.intercalate ['&'] (pairs.map (fun p => formEncode p.1 ++ '=' :: formEncode p.2))

/-- Runtime values of the JavaScript parameter records: strings, numbers
(integral, as used by the client) and booleans.  `undefined` / an absent
property is modelled by `Option.none` around this type. -/
inductive JsValue where
  | str (s : Str)
  | num (n : Int)
  | bool (b : Bool)
deriving DecidableEq

/-- JavaScript `String(v)` coercion of a parameter value, as performed by
`encodeURIComponent` / `URLSearchParams.append` on non-string arguments. -/
def JsValue.render : JsValue → Str
  | .str s => s
  | .num n => (toString n).data
  | .bool b => (if b then "true" else "false").data

/-- JavaScript `typeof` of a property read (`none` is an absent property or
an `undefined` value, whose typeof is the string `undefined`). -/
def typeofStr : Option JsValue → Str
  | none => "undefined".data
  | some (.str _) => "string".data
  | some (.num _) => "number".data
  | some (.bool _) => "boolean".data

/-- Property read on a record modelled as an association list in insertion
order: the first binding of the key, if any. -/
def lookupA {α : Type} (ps : List (Str × α)) (k : Str) : Option α :=
  (ps.find? (fun p => p.1 == k)).map Prod.snd

/-- The guard of the source's required-parameter loop: the property value
must be of type string or number (line 113-116 of the bundled source). -/
def isValidPathParam : Option JsValue → Bool
  | some (.str _) => true
  | some (.num _) => true
  | _ => false

/-- Extraction of placeholder names from a path template: the global
matches of the source's regular expression `(?<=\{)[^}]+(?=})` — each
maximal nonempty run of non-brace-close characters that is immediately
preceded by an opening brace and followed by a closing brace, scanning
left to right.  The scanner state is `none` outside a candidate match and
`some acc` while accumulating the characters that followed an opening
brace; a run that reaches the end of the string without a closing brace
matches nothing, exactly as the lookahead fails there. -/
def extractScan : Option Str → Str → List Str
  | none, [] => []
  | none, c :: rest =>
    if c = '{' then extractScan (some []) rest else extractScan none rest
  | some _, [] => []
  | some acc, c :: rest =>
    if c = '}' then
      if acc ≠ [] then acc :: extractScan none rest else extractScan none rest
    else
      extractScan (some (acc ++ [c])) rest

/-- `path.match(this.props.extractParams)` of the source, with a missing
match (`null`) flattened to the empty list (the source only iterates the
matches). -/
def extractParams (path : Str) : List Str := extractScan none path

/-- JavaScript `String.prototype.replace` with a plain-string pattern:
replace the first occurrence only.  (The source's replacement strings are
`encodeURIComponent` outputs, which never contain `$`, so the special
replacement patterns of `replace` cannot fire.) -/
def replaceFirst (pat rep : Str) : Str → Str
  | [] => if pat.isEmpty then rep else []
  | c :: rest =>
    if pat.isPrefixOf (c :: rest) then rep ++ (c :: rest).drop pat.length
    else c :: replaceFirst pat rep rest

/-- Decidable substring test: does `pat` occur inside `s`? -/
def occursIn (pat : Str) : Str → Bool
  | [] => pat.isEmpty
  | c :: rest => pat.isPrefixOf (c :: rest) || occursIn pat rest

/-- The literal placeholder token of a parameter name, the
`` `{`+param+`}` `` string whose first occurrence the substitution loop
replaces. -/
def braceTok (k : Str) : Str := '{' :: (k ++ ['}'])

/-- The `RequiredError` class of the source: the offending field plus the
human-readable message passed to the `Error` constructor. -/
structure RequiredError where
  field : Str
  msg : Str
deriving DecidableEq

/-- The message string interpolated at line 119-121 of the bundled source:
`Required parameter NAME was undefined or had the wrong type: TYPEOF.` -/
def requiredErrorMsg (param : Str) (ty : Str) : Str :=
  "Required parameter ".data ++ param ++
    " was undefined or had the wrong type: ".data ++ ty ++ ".".data

/-- The required-parameter loop of `createUrl`: walk the extracted names in
order and fail on the first whose property read is neither a string nor a
number, with the interpolated message. -/
def checkParams (names : List Str) (ps : List (Str × JsValue)) : Option RequiredError :=
  match names with
  | [] => none
  | n :: rest =>
    if isValidPathParam (lookupA ps n) then checkParams rest ps
    else some ⟨n, requiredErrorMsg n (typeofStr (lookupA ps n))⟩

/-- The substitution loop of `createUrl`: for each `pathParams` entry in
insertion order, replace the first occurrence of the literal token
`{name}` with the `encodeURIComponent`-encoded string form of the value. -/
def substAll (ps : List (Str × JsValue)) (path : Str) : Str :=
  ps.foldl
    (fun acc p => replaceFirst (braceTok p.1) (encodeURIComponent p.2.render) acc)
    path

/-- The query-building loop of `createUrl`: iterate `searchParams` entries
in insertion order, skip `undefined` values, and append the
`encodeURIComponent`-encoded string form of the rest to a `URLSearchParams`
object (modelled as the ordered pair list it accumulates). -/
def buildQuery (searchParams : List (Str × Option JsValue)) : List (Str × Str) :=
  searchParams.foldl
    (fun acc kv =>
      match kv.2 with
      | none => acc
      | some v => acc ++ [(kv.1, encodeURIComponent v.render)])
    []

/-- The frozen `props.basePath` of the client. -/
def basePathStr : Str := "https://api.everhour.com".data

/-- The frozen `props.version` of the client. -/
def versionStr : Str := "1.2".data

/-- The pair handed to the platform's `new URL(path, basePath)` at the end
of `createUrl`: the relative URL string built by the method, and the base
it is resolved against.  The WHATWG URL constructor itself is a platform
primitive, not code of this repository, so the model stops at its
argument. -/
structure UrlRef where
  rel : Str
  base : Str
deriving DecidableEq

/-- `EverhourApiClient.createUrl` (lines 105-140 of the bundled source):
extract the placeholder names, fail with a `RequiredError` on the first
missing or mistyped path parameter, substitute each `pathParams` entry
(first occurrence of its `{name}` token), serialize the non-`undefined`
query parameters through `URLSearchParams`, append `?` plus that
serialization when at least one pair was appended, and hand the result to
the URL constructor together with the fixed base path. -/
def createUrl (path : Str) (pathParams : List (Str × JsValue))
    (searchParams : List (Str × Option JsValue)) : Except RequiredError UrlRef :=
  match checkParams (extractParams path) pathParams with
  | some e => .error e
  | none =>
    let substituted := substAll pathParams path
    let pairs := buildQuery searchParams
    let withQuery :=
      if pairs.length > 0 then substituted ++ '?' :: serializeSearchParams pairs
      else substituted
    .ok ⟨withQuery, basePathStr⟩

/-- The header record sealed at lines 85-89 and frozen in the constructor
(lines 91-94): content type, caller-supplied API key, pinned protocol
version.  Order is the property-insertion order of the object literal. -/
def mkHeaders (apiKey : Str) : List (Str × Str) :=
  [("Content-Type".data, "application/json".data),
   ("X-Api-Key".data, apiKey),
   ("X-Accept-Version".data, versionStr)]

/-- JSON-serializable payload values (the argument of `JSON.stringify`).
`undefined` at top level is modelled by `Option.none` around this type,
matching the source's `payload !== undefined` guard. -/
inductive Json where
  | null
  | bool (b : Bool)
  | num (n : Int)
  | str (s : Str)
  | arr (xs : List Json)
  | obj (fs : List (Str × Json))

/-- One character under the string escaping of `JSON.stringify`: quote,
backslash and control characters escaped, everything else verbatim. -/
def jsonEscapeChar (c : Char) : Str :=
  if c = dquote then [bslash, dquote]
  else if c = bslash then [bslash, bslash]
  else if c = Char.ofNat 8 then [bslash, 'b']
  else if c = Char.ofNat 9 then [bslash, 't']
  else if c = Char.ofNat 10 then [bslash, 'n']
  else if c = Char.ofNat 12 then [bslash, 'f']
  else if c = Char.ofNat 13 then [bslash, 'r']
  else if c.toNat < 32 then
    [bslash, 'u', '0', '0', hexDigitLower (c.toNat / 16 % 16), hexDigitLower (c.toNat % 16)]
  else [c]

/-- A JSON string literal as printed by `JSON.stringify`. -/
def jsonQuote (s : Str) : Str :=
  dquote :: (s.map jsonEscapeChar).flatten ++ [dquote]

mutual

/-- ECMAScript `JSON.stringify` on a defined JSON value. -/
def Json.stringify : Json → Str
  | .null => "null".data
  | .bool b => (if b then "true" else "false").data
  | .num n => (toString n).data
  | .str s => jsonQuote s
  | .arr xs => '[' :: stringifyArr xs ++ [']']
  | .obj fs => '{' :: stringifyObj fs ++ ['}']

/-- Comma-separated serialization of a JSON array body. -/
def stringifyArr : List Json → Str
  | [] => []
  | [x] => x.stringify
  | x :: y :: rest => x.stringify ++ ',' :: stringifyArr (y :: rest)

/-- Comma-separated serialization of a JSON object body. -/
def stringifyObj : List (Str × Json) → Str
  | [] => []
  | [f] => jsonQuote f.1 ++ ':' :: f.2.stringify
  | f :: g :: rest => jsonQuote f.1 ++ ':' :: f.2.stringify ++ ',' :: stringifyObj (g :: rest)

end

/-- The `RequestInit` options composed at lines 165-168 of the bundled
source: the method string, the client's header record, and a body that is
set only when the payload is not `undefined`. -/
structure RequestOptions where
  method : Str
  headers : List (Str × Str)
  body : Option Str
deriving DecidableEq

/-- Options composition of `apiRequest`: method plus the instance's frozen
headers, and `body = JSON.stringify(payload)` exactly when `payload` is
defined.  The runtime code does not consult the method here. -/
def requestOptions (method : Str) (apiKey : Str) (payload : Option Json) : RequestOptions :=
  { method := method, headers := mkHeaders apiKey, body := payload.map Json.stringify }

/-- The observable part of a platform `fetch` response used by the source:
the numeric status and the raw body text (`response.text()`;
`response.json()` is the platform JSON parse of the same body, modelled as
a caller-supplied decoding function). -/
structure FetchResponse where
  status : Nat
  body : Str
deriving DecidableEq

/-- The success test at line 171 of the bundled source:
`response.status >= 200 && response.status < 300`. -/
def statusOkRange (s : Nat) : Bool :=
  decide (200 ≤ s) && decide (s < 300)

/-- The error message interpolated at line 175 of the bundled source:
`Status: N, Text: 'BODY'`. -/
def apiErrorMsg (status : Nat) (text : Str) : Str :=
  "Status: ".data ++ (toString status).data ++ ", Text: ".data ++ apos :: text ++ [apos]

/-- The response handler of `apiRequest` (lines 170-177): a 2xx status
returns the JSON-decoded body as the declared type with no further check;
any other status fails with the status/text message.  `decode` stands for
the platform's `response.json()` on the body. -/
def handleResponse {T : Type} (decode : Str → T) (resp : FetchResponse) : Except Str T :=
  if statusOkRange resp.status then .ok (decode resp.body)
  else .error (apiErrorMsg resp.status resp.body)

/-- `EverhourApiClient.apiRequest` (runtime implementation, lines 160-178):
compose the options, perform one `fetch` (the injected transport
primitive) against the built URL, and handle the response. -/
def apiRequest {T : Type} (decode : Str → T)
    (transport : UrlRef → RequestOptions → FetchResponse)
    (method : Str) (apiKey : Str) (url : UrlRef) (payload : Option Json) : Except Str T :=
  handleResponse decode (transport url (requestOptions method apiKey payload))

/-- The per-instance state of `EverhourApiClient`: the frozen `props`
(base path, version; the extraction pattern is a constant regex literal)
and the frozen header record. -/
structure ClientState where
  basePath : Str
  version : Str
  headers : List (Str × Str)
deriving DecidableEq

/-- The constructor (lines 91-94): store the caller-supplied key in the
header record and freeze it.  No validation is performed on the key. -/
def initClient (apiKey : Str) : ClientState :=
  { basePath := basePathStr, version := versionStr, headers := mkHeaders apiKey }

/-- `createUrl` as a state transformer on the client instance.  The source
method (lines 105-140) reads only the frozen `props` and contains no
assignment to `this` — the only reassigned name is the local `path`
parameter — so the returned state is the input state. -/
def createUrlSt (c : ClientState) (path : Str) (pathParams : List (Str × JsValue))
    (searchParams : List (Str × Option JsValue)) :
    (Except RequiredError UrlRef) × ClientState :=
  (createUrl path pathParams searchParams, c)

/-! ### Structured path templates

Well-formed templates — brace-free literal stretches alternating with
simple `\x7bname\x7d` placeholders — are the shapes the endpoint wrappers
actually pass, and several claims hold only on them.  `renderSegs` maps the
structure back to the raw template string the code receives. -/

/-- A segment of a well-formed template: a literal stretch or a
placeholder. -/
inductive Seg where
  | lit (s : Str)
  | hole (name : Str)
deriving DecidableEq

/-- Brace-freeness of a string. -/
def braceFree (s : Str) : Bool :=
  s.all (fun c => c != '{' && c != '}')

/-- Validity of a segment: literals are brace-free, placeholder names are
nonempty and brace-free. -/
def Seg.valid : Seg → Bool
  | .lit s => braceFree s
  | .hole n => braceFree n && !n.isEmpty

/-- Validity of a whole segment list. -/
def validSegs (segs : List Seg) : Bool :=
  segs.all Seg.valid

/-- The raw template string denoted by a segment list. -/
def renderSegs : List Seg → Str
  | [] => []
  | .lit s :: rest => s ++ renderSegs rest
  | .hole n :: rest => '{' :: (n ++ '}' :: renderSegs rest)

/-- The placeholder names of a segment list, in order. -/
def holeNames : List Seg → List Str
  | [] => []
  | .lit _ :: rest => holeNames rest
  | .hole n :: rest => n :: holeNames rest

/-- Replace the first placeholder named `k` by the literal `rep`, leaving
everything else untouched. -/
def replaceHole (k rep : Str) : List Seg → List Seg
  | [] => []
  | .hole n :: rest =>
    if n = k then .lit rep :: rest else .hole n :: replaceHole k rep rest
  | .lit s :: rest => .lit s :: replaceHole k rep rest

/-- The substitution loop of `createUrl` carried out on segment lists. -/
def substSegs (ps : List (Str × JsValue)) (segs : List Seg) : List Seg :=
  ps.foldl (fun sg p => replaceHole p.1 (encodeURIComponent p.2.render) sg) segs

/-- The one-pass reference substitution: each placeholder becomes the
encoded string form of its looked-up value, placeholders without a binding
stay. -/
def mapLookup (ps : List (Str × JsValue)) : List Seg → List Seg :=
  List.map (fun sg =>
    match sg with
    | .hole n =>
      match lookupA ps n with
      | some v => .lit (encodeURIComponent v.render)
      | none => .hole n
    | .lit s => .lit s)

/-! ### Supporting lemmas: association-list reads -/

theorem lookupA_cons_ne {α : Type} (p : Str × α) (ps : List (Str × α)) (k : Str)
    (h : p.1 ≠ k) : lookupA (p :: ps) k = lookupA ps k := by
  simp only [lookupA, List.find?]
  have : (p.1 == k) = false := beq_eq_false_iff_ne.mpr h
  simp [this]

theorem lookupA_cons_self {α : Type} (p : Str × α) (ps : List (Str × α)) :
    lookupA (p :: ps) p.1 = some p.2 := by
  simp [lookupA, List.find?]

theorem lookupA_append_extra {α : Type} (ps extra : List (Str × α)) (n : Str)
    (h : ∀ q ∈ extra, q.1 ≠ n) : lookupA (ps ++ extra) n = lookupA ps n := by
  induction ps with
  | nil =>
    have hfind : extra.find? (fun p => p.1 == n) = none := by
      apply List.find?_eq_none.mpr
      intro q hq
      simpa using h q hq
    simp [lookupA, hfind]
  | cons p ps ih =>
    by_cases hp : p.1 = n
    · subst hp
      rw [List.cons_append]
      rw [lookupA_cons_self p (ps ++ extra), lookupA_cons_self p ps]
    · rw [List.cons_append, lookupA_cons_ne _ _ _ hp, lookupA_cons_ne _ _ _ hp]
      exact ih

/-! ### Supporting lemmas: placeholder extraction on structured templates -/

theorem extractScan_skip (s t : Str) (h : braceFree s = true) :
    extractScan none (s ++ t) = extractScan none t := by
  induction s with
  | nil => rfl
  | cons c s ih =>
    simp only [braceFree, List.all_cons, Bool.and_eq_true, bne_iff_ne, ne_eq] at h
    simp only [List.cons_append, extractScan, if_neg h.1.1]
    exact ih (by simpa [braceFree] using h.2)

theorem extractScan_inside (n t : Str) (acc : Str) (h : braceFree n = true) :
    extractScan (some acc) (n ++ '}' :: t) =
      if acc ++ n ≠ [] then (acc ++ n) :: extractScan none t
      else extractScan none t := by
  induction n generalizing acc with
  | nil =>
    simp [extractScan]
  | cons c n ih =>
    simp only [braceFree, List.all_cons, Bool.and_eq_true, bne_iff_ne, ne_eq] at h
    simp only [List.cons_append, extractScan, if_neg h.1.2, List.append_eq]
    rw [ih (acc ++ [c]) (by simpa [braceFree] using h.2)]
    simp

theorem extractScan_hole (n t : Str) (h : braceFree n = true) (hn : n ≠ []) :
    extractScan none ('{' :: (n ++ '}' :: t)) = n :: extractScan none t := by
  simp only [extractScan, if_pos rfl]
  rw [extractScan_inside n t [] h]
  simp [hn]

theorem extract_render (segs : List Seg) (h : validSegs segs = true) :
    extractParams (renderSegs segs) = holeNames segs := by
  induction segs with
  | nil => rfl
  | cons sg rest ih =>
    simp only [validSegs, List.all_cons, Bool.and_eq_true] at h
    cases sg with
    | lit s =>
      simp only [renderSegs, holeNames, extractParams]
      rw [extractScan_skip s _ (by simpa [Seg.valid] using h.1)]
      exact ih (by simpa [validSegs] using h.2)
    | hole n =>
      simp only [renderSegs, holeNames, extractParams]
      have hv := h.1
      simp only [Seg.valid, Bool.and_eq_true, Bool.not_eq_true'] at hv
      have hn : n ≠ [] := by
        intro hnil
        rw [hnil] at hv
        exact absurd hv.2 (by decide)
      rw [extractScan_hole n _ hv.1 hn]
      exact congrArg _ (ih (by simpa [validSegs] using h.2))

/-! ### Supporting lemmas: brace-freeness of the encoders -/

theorem braceFree_append (s t : Str) :
    braceFree (s ++ t) = (braceFree s && braceFree t) := by
  simp [braceFree, List.all_append]

theorem uri_unreserved_not_brace {c : Char} (h : isUriUnreserved c = true) :
    (c != '{' && c != '}') = true := by
  rcases Decidable.em (c = '{') with h1 | h1
  · subst h1; exact absurd h (by decide)
  rcases Decidable.em (c = '}') with h2 | h2
  · subst h2; exact absurd h (by decide)
  simp [h1, h2]

theorem braceFree_percentByte (b : Nat) : braceFree (percentByte b) = true := by
  have H : ∀ r, r < 16 → ((hexDigit r != '{' && hexDigit r != '}') = true) := by decide
  have h1 := H (b / 16 % 16) (Nat.mod_lt _ (by decide))
  have h2 := H (b % 16) (Nat.mod_lt _ (by decide))
  simp only [braceFree, percentByte, List.all_cons, List.all_nil]
  simp only [Bool.and_eq_true] at h1 h2 ⊢
  exact ⟨by decide, h1, h2, trivial⟩

theorem braceFree_percentChar (c : Char) : braceFree (percentChar c) = true := by
  unfold percentChar
  generalize utf8Bytes c.toNat = bs
  induction bs with
  | nil => rfl
  | cons b bs ih =>
    simp only [List.map_cons, List.flatten_cons]
    rw [braceFree_append, braceFree_percentByte, ih]
    rfl

theorem braceFree_encode (s : Str) : braceFree (encodeURIComponent s) = true := by
  induction s with
  | nil => rfl
  | cons c s ih =>
    simp only [encodeURIComponent]
    rw [braceFree_append]
    by_cases h : isUriUnreserved c = true
    · have hb := uri_unreserved_not_brace h
      rw [if_pos h, ih]
      simp [braceFree, hb]
    · rw [if_neg h, braceFree_percentChar, ih]
      rfl

/-! ### Supporting lemmas: single-occurrence replacement on rendered templates -/

theorem isPrefixOf_append_self (l t : Str) : l.isPrefixOf (l ++ t) = true := by
  induction l with
  | nil => simp [List.isPrefixOf]
  | cons c l ih => simp [List.isPrefixOf, ih]

theorem isPrefixOf_closed_mismatch (k : Str) : ∀ (n t : Str), braceFree k = true →
    braceFree n = true → k ≠ n → (k ++ ['}']).isPrefixOf (n ++ '}' :: t) = false := by
  induction k with
  | nil =>
    intro n t _ hn hne
    cases n with
    | nil => exact absurd rfl hne
    | cons e n' =>
      simp only [braceFree, List.all_cons, Bool.and_eq_true, bne_iff_ne, ne_eq] at hn
      have he : ('}' == e) = false := beq_eq_false_iff_ne.mpr (Ne.symm hn.1.2)
      simp [List.isPrefixOf, he]
  | cons c k' ih =>
    intro n t hk hn hne
    simp only [braceFree, List.all_cons, Bool.and_eq_true, bne_iff_ne, ne_eq] at hk
    cases n with
    | nil =>
      have hc : (c == '}') = false := beq_eq_false_iff_ne.mpr hk.1.2
      simp [List.isPrefixOf, hc]
    | cons d n' =>
      simp only [braceFree, List.all_cons, Bool.and_eq_true, bne_iff_ne, ne_eq] at hn
      by_cases hcd : c = d
      · subst hcd
        have hne' : k' ≠ n' := by
          intro hEq; exact hne (by rw [hEq])
        have := ih n' t (by simpa [braceFree] using hk.2) (by simpa [braceFree] using hn.2) hne'
        simp [List.isPrefixOf, this]
      · have hc : (c == d) = false := beq_eq_false_iff_ne.mpr hcd
        simp [List.isPrefixOf, hc]

theorem replaceFirst_at_head (pat rep t : Str) (h : pat ≠ []) :
    replaceFirst pat rep (pat ++ t) = rep ++ t := by
  cases pat with
  | nil => exact absurd rfl h
  | cons c p =>
    simp only [List.cons_append, replaceFirst]
    rw [if_pos (by simp [List.append_eq, List.isPrefixOf, isPrefixOf_append_self])]
    simp [List.drop_left]

theorem replaceFirst_skip (p rep : Str) : ∀ (s t : Str), braceFree s = true →
    replaceFirst ('{' :: p) rep (s ++ t) = s ++ replaceFirst ('{' :: p) rep t := by
  intro s
  induction s with
  | nil => intro t _; rfl
  | cons c s' ih =>
    intro t hs
    simp only [braceFree, List.all_cons, Bool.and_eq_true, bne_iff_ne, ne_eq] at hs
    have hc : ('{' == c) = false := beq_eq_false_iff_ne.mpr (Ne.symm hs.1.1)
    simp only [List.cons_append, replaceFirst, List.isPrefixOf, hc, Bool.false_and,
      Bool.false_eq_true, if_false]
    exact congrArg _ (ih t (by simpa [braceFree] using hs.2))

theorem replaceHole_not_mem (k rep : Str) (segs : List Seg) (h : k ∉ holeNames segs) :
    replaceHole k rep segs = segs := by
  induction segs with
  | nil => rfl
  | cons sg rest ih =>
    cases sg with
    | lit s =>
      simp only [holeNames] at h
      simp [replaceHole, ih h]
    | hole n =>
      simp only [holeNames, List.mem_cons] at h
      push_neg at h
      simp [replaceHole, Ne.symm h.1, ih h.2]

theorem validSegs_replaceHole (k rep : Str) (segs : List Seg)
    (h : validSegs segs = true) (hrep : braceFree rep = true) :
    validSegs (replaceHole k rep segs) = true := by
  induction segs with
  | nil => rfl
  | cons sg rest ih =>
    simp only [validSegs, List.all_cons, Bool.and_eq_true] at h
    have ih' := ih (by simpa [validSegs] using h.2)
    cases sg with
    | lit s =>
      simp only [replaceHole, validSegs, List.all_cons, h.1, Bool.true_and]
      simpa [validSegs] using ih'
    | hole n =>
      by_cases hn : n = k
      · subst hn
        have h2 : validSegs rest = true := by simpa [validSegs] using h.2
        have hv2 : Seg.valid (Seg.lit rep) = true := by simpa [Seg.valid] using hrep
        have hrw : replaceHole n rep (Seg.hole n :: rest) = Seg.lit rep :: rest := by
          simp [replaceHole]
        rw [hrw]
        simp only [validSegs, List.all_cons, Bool.and_eq_true]
        exact ⟨hv2, by simpa [validSegs] using h2⟩
      · simp only [replaceHole, if_neg hn, validSegs, List.all_cons, h.1, Bool.true_and]
        simpa [validSegs] using ih'

theorem holeNames_replaceHole (k rep : Str) (segs : List Seg) :
    holeNames (replaceHole k rep segs) = (holeNames segs).erase k := by
  induction segs with
  | nil => rfl
  | cons sg rest ih =>
    cases sg with
    | lit s => simpa [replaceHole, holeNames] using ih
    | hole n =>
      by_cases hn : n = k
      · subst hn
        simp [replaceHole, holeNames, List.erase_cons_head]
      · have : (n == k) = false := beq_eq_false_iff_ne.mpr hn
        simp [replaceHole, hn, holeNames, List.erase_cons, this, ih]

theorem renderSegs_append (a b : List Seg) :
    renderSegs (a ++ b) = renderSegs a ++ renderSegs b := by
  induction a with
  | nil => rfl
  | cons sg rest ih =>
    cases sg with
    | lit s => simp [renderSegs, ih]
    | hole n => simp [renderSegs, ih]

theorem replaceHole_split (pre post : List Seg) (x rep : Str) (h : x ∉ holeNames pre) :
    replaceHole x rep (pre ++ .hole x :: post) = pre ++ .lit rep :: post := by
  induction pre with
  | nil => simp [replaceHole]
  | cons sg rest ih =>
    cases sg with
    | lit s =>
      simp only [holeNames] at h
      simp [replaceHole, ih h]
    | hole n =>
      simp only [holeNames, List.mem_cons] at h
      push_neg at h
      simp [replaceHole, Ne.symm h.1, ih h.2]

theorem replaceFirst_render (k rep : Str) : ∀ (segs : List Seg),
    validSegs segs = true → braceFree k = true →
    replaceFirst (braceTok k) rep (renderSegs segs) =
      renderSegs (replaceHole k rep segs) := by
  intro segs
  induction segs with
  | nil => intro _ _; rfl
  | cons sg rest ih =>
    intro hv hk
    simp only [validSegs, List.all_cons, Bool.and_eq_true] at hv
    have ihr := ih (by simpa [validSegs] using hv.2) hk
    cases sg with
    | lit s =>
      simp only [renderSegs, replaceHole]
      rw [braceTok, replaceFirst_skip (k ++ ['}']) rep s _ (by simpa [Seg.valid] using hv.1)]
      rw [← braceTok, ihr]
    | hole n =>
      have hvn := hv.1
      simp only [Seg.valid, Bool.and_eq_true, Bool.not_eq_true'] at hvn
      by_cases hn : n = k
      · subst hn
        have hrw : renderSegs (Seg.hole n :: rest) = braceTok n ++ renderSegs rest := by
          simp [renderSegs, braceTok]
        rw [hrw, replaceFirst_at_head _ _ _ (by simp [braceTok])]
        simp [replaceHole, renderSegs]
      · have hmis := isPrefixOf_closed_mismatch k n (renderSegs rest) hk hvn.1 (Ne.symm hn)
        simp only [renderSegs, braceTok, replaceFirst]
        rw [if_neg (by simp [List.isPrefixOf, hmis])]
        rw [replaceFirst_skip (k ++ ['}']) rep n ('}' :: renderSegs rest) hvn.1]
        have hstep : replaceFirst ('{' :: (k ++ ['}'])) rep ('}' :: renderSegs rest) =
            '}' :: replaceFirst ('{' :: (k ++ ['}'])) rep (renderSegs rest) := by
          simp [replaceFirst, List.isPrefixOf]
        rw [hstep]
        rw [show ('{' :: (k ++ ['}'])) = braceTok k from rfl, ihr]
        simp [replaceHole, if_neg hn, renderSegs]

theorem substAll_cons (p : Str × JsValue) (ps : List (Str × JsValue)) (path : Str) :
    substAll (p :: ps) path =
      substAll ps (replaceFirst (braceTok p.1) (encodeURIComponent p.2.render) path) :=
  rfl

theorem substSegs_cons (p : Str × JsValue) (ps : List (Str × JsValue)) (segs : List Seg) :
    substSegs (p :: ps) segs =
      substSegs ps (replaceHole p.1 (encodeURIComponent p.2.render) segs) :=
  rfl

theorem validSegs_substSegs (ps : List (Str × JsValue)) : ∀ (segs : List Seg),
    validSegs segs = true → validSegs (substSegs ps segs) = true := by
  induction ps with
  | nil => intro segs h; exact h
  | cons p ps ih =>
    intro segs h
    rw [substSegs_cons]
    exact ih _ (validSegs_replaceHole p.1 _ segs h (braceFree_encode _))

theorem substAll_render (ps : List (Str × JsValue)) : ∀ (segs : List Seg),
    validSegs segs = true → (∀ p ∈ ps, braceFree p.1 = true) →
    substAll ps (renderSegs segs) = renderSegs (substSegs ps segs) := by
  induction ps with
  | nil => intro segs _ _; rfl
  | cons p ps ih =>
    intro segs hv hps
    rw [substAll_cons, substSegs_cons]
    rw [replaceFirst_render p.1 _ segs hv (hps p (by simp))]
    exact ih _ (validSegs_replaceHole p.1 _ segs hv (braceFree_encode _))
      (fun q hq => hps q (by simp [hq]))

/-! ### Supporting lemmas: the one-pass substitution characterization -/

theorem mapLookup_nil (segs : List Seg) : mapLookup [] segs = segs := by
  induction segs with
  | nil => rfl
  | cons sg rest ih =>
    cases sg with
    | lit s => simpa [mapLookup] using ih
    | hole n => simpa [mapLookup, lookupA] using ih

theorem mapLookup_cons_lit (ps : List (Str × JsValue)) (s : Str) (rest : List Seg) :
    mapLookup ps (Seg.lit s :: rest) = Seg.lit s :: mapLookup ps rest := rfl

theorem mapLookup_cons_hole (ps : List (Str × JsValue)) (n : Str) (rest : List Seg) :
    mapLookup ps (Seg.hole n :: rest) =
      (match lookupA ps n with
        | some v => Seg.lit (encodeURIComponent v.render)
        | none => Seg.hole n) :: mapLookup ps rest := rfl

theorem mapLookup_cons_notMem (p : Str × JsValue) (ps : List (Str × JsValue)) :
    ∀ segs, p.1 ∉ holeNames segs → mapLookup (p :: ps) segs = mapLookup ps segs := by
  intro segs
  induction segs with
  | nil => intro _; rfl
  | cons sg rest ih =>
    intro h
    cases sg with
    | lit s =>
      simp only [holeNames] at h
      simp only [mapLookup, List.map_cons]
      exact congrArg _ (ih h)
    | hole n =>
      simp only [holeNames, List.mem_cons] at h
      push_neg at h
      simp only [mapLookup, List.map_cons]
      rw [show lookupA (p :: ps) n = lookupA ps n from lookupA_cons_ne p ps n h.1]
      exact congrArg _ (ih h.2)

theorem mapLookup_replaceHole (p : Str × JsValue) (ps : List (Str × JsValue)) :
    ∀ segs, (holeNames segs).Nodup →
    mapLookup ps (replaceHole p.1 (encodeURIComponent p.2.render) segs) =
      mapLookup (p :: ps) segs := by
  intro segs
  induction segs with
  | nil => intro _; rfl
  | cons sg rest ih =>
    intro hnd
    cases sg with
    | lit s =>
      simp only [replaceHole, mapLookup, List.map_cons]
      exact congrArg _ (ih (by simpa [holeNames] using hnd))
    | hole n =>
      simp only [holeNames, List.nodup_cons] at hnd
      by_cases hn : n = p.1
      · have hrw : replaceHole p.1 (encodeURIComponent p.2.render) (Seg.hole n :: rest) =
            Seg.lit (encodeURIComponent p.2.render) :: rest := by
          simp [replaceHole, hn]
        rw [hrw, mapLookup_cons_lit, mapLookup_cons_hole]
        have hl : lookupA (p :: ps) n = some p.2 := by
          rw [hn]; simpa using lookupA_cons_self p ps
        rw [hl]
        rw [hn] at hnd
        exact congrArg _ (mapLookup_cons_notMem p ps rest hnd.1).symm
      · have hrw : replaceHole p.1 (encodeURIComponent p.2.render) (Seg.hole n :: rest) =
            Seg.hole n :: replaceHole p.1 (encodeURIComponent p.2.render) rest := by
          simp [replaceHole, hn]
        rw [hrw, mapLookup_cons_hole, mapLookup_cons_hole]
        rw [show lookupA (p :: ps) n = lookupA ps n from lookupA_cons_ne p ps n (Ne.symm hn)]
        exact congrArg _ (ih hnd.2)

theorem substSegs_eq_mapLookup (ps : List (Str × JsValue)) :
    ∀ segs, (holeNames segs).Nodup → substSegs ps segs = mapLookup ps segs := by
  induction ps with
  | nil => intro segs _; exact (mapLookup_nil segs).symm
  | cons p ps ih =>
    intro segs hnd
    rw [substSegs_cons]
    have hnd' : (holeNames (replaceHole p.1 (encodeURIComponent p.2.render) segs)).Nodup := by
      rw [holeNames_replaceHole]
      exact hnd.erase _
    rw [ih _ hnd']
    exact mapLookup_replaceHole p ps segs hnd

theorem holeNames_mapLookup_complete (ps : List (Str × JsValue)) :
    ∀ segs, (∀ n ∈ holeNames segs, (lookupA ps n).isSome = true) →
    holeNames (mapLookup ps segs) = [] := by
  intro segs
  induction segs with
  | nil => intro _; rfl
  | cons sg rest ih =>
    intro h
    cases sg with
    | lit s =>
      simp only [holeNames] at h
      simp only [mapLookup, List.map_cons, holeNames]
      exact ih h
    | hole n =>
      have hn : (lookupA ps n).isSome = true := h n (by simp [holeNames])
      obtain ⟨v, hv⟩ := Option.isSome_iff_exists.mp hn
      simp only [mapLookup, List.map_cons, hv, holeNames]
      exact ih (fun m hm => h m (by simp [holeNames, hm]))

theorem validSegs_mapLookup (ps : List (Str × JsValue)) :
    ∀ segs, validSegs segs = true → validSegs (mapLookup ps segs) = true := by
  intro segs
  induction segs with
  | nil => intro _; rfl
  | cons sg rest ih =>
    intro h
    simp only [validSegs, List.all_cons, Bool.and_eq_true] at h
    have ih' := ih (by simpa [validSegs] using h.2)
    cases sg with
    | lit s =>
      rw [mapLookup_cons_lit]
      simp only [validSegs, List.all_cons, Bool.and_eq_true]
      exact ⟨h.1, by simpa [validSegs] using ih'⟩
    | hole n =>
      rw [mapLookup_cons_hole]
      cases hv : lookupA ps n with
      | none =>
        simp only [hv, validSegs, List.all_cons, Bool.and_eq_true]
        exact ⟨h.1, by simpa [validSegs] using ih'⟩
      | some v =>
        simp only [hv, validSegs, List.all_cons, Bool.and_eq_true]
        refine ⟨?_, by simpa [validSegs] using ih'⟩
        simpa [Seg.valid] using braceFree_encode v.render

/-! ### Supporting lemmas: substring occurrence -/

theorem occursIn_append_right (pat s t : Str) (h : occursIn pat t = true) :
    occursIn pat (s ++ t) = true := by
  induction s with
  | nil => simpa using h
  | cons c s ih => simp [occursIn, ih]

theorem occursIn_at_head (pat t : Str) (h : pat ≠ []) : occursIn pat (pat ++ t) = true := by
  cases pat with
  | nil => exact absurd rfl h
  | cons c p =>
    have := isPrefixOf_append_self (c :: p) t
    simp only [List.cons_append] at this ⊢
    simp [occursIn, this]

theorem occursIn_hole (x : Str) : ∀ segs, x ∈ holeNames segs →
    occursIn (braceTok x) (renderSegs segs) = true := by
  intro segs
  induction segs with
  | nil => intro h; exact absurd h (by simp [holeNames])
  | cons sg rest ih =>
    intro h
    cases sg with
    | lit s =>
      simp only [holeNames] at h
      simp only [renderSegs]
      exact occursIn_append_right _ s _ (ih h)
    | hole n =>
      simp only [holeNames, List.mem_cons] at h
      rcases h with h | h
      · subst h
        have hrw : renderSegs (Seg.hole x :: rest) = braceTok x ++ renderSegs rest := by
          simp [renderSegs, braceTok]
        rw [hrw]
        exact occursIn_at_head _ _ (by simp [braceTok])
      · have hrw : renderSegs (Seg.hole n :: rest) =
            ('{' :: n ++ ['}']) ++ renderSegs rest := by
          simp [renderSegs]
        rw [hrw]
        exact occursIn_append_right _ _ _ (ih h)

/-! ### Supporting lemmas: the required-parameter check -/

theorem checkParams_none_of_all (ps : List (Str × JsValue)) :
    ∀ names, (∀ n ∈ names, isValidPathParam (lookupA ps n) = true) →
    checkParams names ps = none := by
  intro names
  induction names with
  | nil => intro _; rfl
  | cons m rest ih =>
    intro h
    simp only [checkParams, if_pos (h m (by simp))]
    exact ih (fun n hn => h n (by simp [hn]))

theorem checkParams_first_bad (ps : List (Str × JsValue)) :
    ∀ names, (∃ n ∈ names, isValidPathParam (lookupA ps n) = false) →
    ∃ e, checkParams names ps = some e ∧ e.field ∈ names ∧
      isValidPathParam (lookupA ps e.field) = false ∧
      e.msg = requiredErrorMsg e.field (typeofStr (lookupA ps e.field)) := by
  intro names
  induction names with
  | nil => rintro ⟨n, hn, _⟩; exact absurd hn (by simp)
  | cons m rest ih =>
    rintro ⟨n, hn, hbad⟩
    by_cases hm : isValidPathParam (lookupA ps m) = true
    · have hnr : n ∈ rest := by
        rcases List.mem_cons.mp hn with h | h
        · subst h; rw [hm] at hbad; exact absurd hbad (by simp)
        · exact h
      obtain ⟨e, he1, he2, he3, he4⟩ := ih ⟨n, hnr, hbad⟩
      refine ⟨e, ?_, by simp [he2], he3, he4⟩
      simpa [checkParams, if_pos hm] using he1
    · have hm' : isValidPathParam (lookupA ps m) = false := by
        simpa using hm
      refine ⟨⟨m, requiredErrorMsg m (typeofStr (lookupA ps m))⟩, ?_, by simp, hm', rfl⟩
      simp [checkParams, hm']

theorem checkParams_congr (ps₁ ps₂ : List (Str × JsValue)) :
    ∀ names, (∀ n ∈ names, lookupA ps₂ n = lookupA ps₁ n) →
    checkParams names ps₂ = checkParams names ps₁ := by
  intro names
  induction names with
  | nil => intro _; rfl
  | cons m rest ih =>
    intro h
    simp only [checkParams, h m (by simp)]
    split
    · exact ih (fun n hn => h n (by simp [hn]))
    · rfl

/-! ### Supporting lemmas: the query builder -/

theorem buildQuery_eq_filterMap (qs : List (Str × Option JsValue)) :
    buildQuery qs =
      qs.filterMap (fun kv => kv.2.map (fun v => (kv.1, encodeURIComponent v.render))) := by
  suffices H : ∀ acc,
      qs.foldl
        (fun acc kv =>
          match kv.2 with
          | none => acc
          | some v => acc ++ [(kv.1, encodeURIComponent v.render)])
        acc =
      acc ++ qs.filterMap (fun kv => kv.2.map (fun v => (kv.1, encodeURIComponent v.render))) by
    simpa [buildQuery] using H []
  induction qs with
  | nil => intro acc; simp
  | cons kv qs ih =>
    intro acc
    obtain ⟨k, ov⟩ := kv
    cases ov with
    | none => simpa [List.filterMap_cons] using ih acc
    | some v => simp [List.filterMap_cons, ih]

/-! ### Supporting lemmas: extra entries on well-formed templates -/

theorem substAll_extra_id (extra : List (Str × JsValue)) :
    ∀ segs, validSegs segs = true →
    (∀ q ∈ extra, braceFree q.1 = true ∧ q.1 ∉ holeNames segs) →
    substAll extra (renderSegs segs) = renderSegs segs := by
  induction extra with
  | nil => intro segs _ _; rfl
  | cons q extra ih =>
    intro segs hv hq
    rw [substAll_cons, replaceFirst_render q.1 _ segs hv (hq q (by simp)).1]
    rw [replaceHole_not_mem _ _ _ (hq q (by simp)).2]
    exact ih segs hv (fun r hr => hq r (by simp [hr]))

theorem holeNames_substSegs_subset (ps : List (Str × JsValue)) :
    ∀ segs x, x ∈ holeNames (substSegs ps segs) → x ∈ holeNames segs := by
  induction ps with
  | nil => intro segs x h; exact h
  | cons p ps ih =>
    intro segs x h
    rw [substSegs_cons] at h
    have hx := ih _ x h
    rw [holeNames_replaceHole] at hx
    exact List.mem_of_mem_erase hx

theorem isSome_of_validPathParam (o : Option JsValue)
    (h : isValidPathParam o = true) : o.isSome = true := by
  cases o with
  | none => exact absurd h (by decide)
  | some v => rfl

theorem mapLookup_no_holes (ps : List (Str × JsValue)) :
    ∀ segs, holeNames segs = [] → mapLookup ps segs = segs := by
  intro segs
  induction segs with
  | nil => intro _; rfl
  | cons sg rest ih =>
    intro h
    cases sg with
    | lit s =>
      rw [mapLookup_cons_lit]
      exact congrArg _ (ih (by simpa [holeNames] using h))
    | hole n => exact absurd h (by simp [holeNames])

/-! ### The claims -/

/-- C1: whenever some placeholder name extracted from the template is
absent from `pathParams` or bound to a value that is neither a string nor
a number (e.g. a boolean), `createUrl` fails with exactly the
`RequiredError` computed by the pre-substitution check — it identifies an
offending parameter name and the `typeof` actually received — so the
failure happens before any substitution and before anything reaches the
transport; and a boolean value fails the very same type test that an
absent key fails. -/
theorem c1_required_param_failure (path : Str) (ps : List (Str × JsValue))
    (qs : List (Str × Option JsValue)) (n : Str)
    (hn : n ∈ extractParams path)
    (hbad : isValidPathParam (lookupA ps n) = false) :
    (∃ e, createUrl path ps qs = .error e ∧
      checkParams (extractParams path) ps = some e ∧
      e.field ∈ extractParams path ∧
      isValidPathParam (lookupA ps e.field) = false ∧
      e.msg = requiredErrorMsg e.field (typeofStr (lookupA ps e.field))) ∧
    (∀ b, isValidPathParam (some (JsValue.bool b)) = isValidPathParam none) := by
  obtain ⟨e, he1, he2, he3, he4⟩ :=
    checkParams_first_bad ps (extractParams path) ⟨n, hn, hbad⟩
  refine ⟨⟨e, ?_, he1, he2, he3, he4⟩, fun b => rfl⟩
  unfold createUrl
  rw [he1]

/-- C1 witness: a template whose only placeholder `userId` is absent from
the parameter record is rejected with the matching `RequiredError`. -/
theorem c1_witness :
    ("userId".data ∈ extractParams "/users/\x7buserId\x7d/timecard".data ∧
      isValidPathParam (lookupA ([] : List (Str × JsValue)) "userId".data) = false) ∧
    ((∃ e, createUrl "/users/\x7buserId\x7d/timecard".data [] [] = .error e ∧
      checkParams (extractParams "/users/\x7buserId\x7d/timecard".data) [] = some e ∧
      e.field ∈ extractParams "/users/\x7buserId\x7d/timecard".data ∧
      isValidPathParam (lookupA ([] : List (Str × JsValue)) e.field) = false ∧
      e.msg = requiredErrorMsg e.field (typeofStr (lookupA ([] : List (Str × JsValue)) e.field))) ∧
    (∀ b, isValidPathParam (some (JsValue.bool b)) = isValidPathParam none)) :=
  ⟨⟨by decide, by decide⟩,
    c1_required_param_failure "/users/\x7buserId\x7d/timecard".data [] [] "userId".data
      (by decide) (by decide)⟩

/-- C2 counterexample: a query value consisting of one space is emitted as
`%2520`, i.e. the `encodeURIComponent` output is escaped a second time by
the `URLSearchParams` serializer — not the single standard component
escaping (`%20`) the claim describes. -/
theorem c2_counterexample :
    createUrl "/t".data [] [("a".data, some (JsValue.str " ".data))] =
      .ok ⟨"/t?a=%2520".data, basePathStr⟩ ∧
    "/t?a=%2520".data ≠
      "/t".data ++ '?' :: ("a".data ++ '=' :: encodeURIComponent " ".data) :=
  ⟨rfl, by decide⟩

/-- C2 amended: entries with `undefined` values are dropped; the remaining
entries appear in insertion order as `key=value` pairs joined by `&` after
a `?` that is appended only when at least one pair remains; and each value
is percent-encoded twice — `encodeURIComponent` first, then the
form-urlencoded escaping of the `URLSearchParams` serializer (which also
escapes the keys). -/
theorem c2_query_double_encoding (t : Str) (ps : List (Str × JsValue))
    (qs : List (Str × Option JsValue))
    (hok : checkParams (extractParams t) ps = none) :
    (createUrl t ps qs = .ok
      ⟨substAll ps t ++
        (if (qs.filterMap fun kv => kv.2.map fun v => (kv.1, encodeURIComponent v.render)) = []
          then []
          else '?' :: List.intercalate ['&']
            ((qs.filterMap fun kv => kv.2.map fun v => (kv.1, encodeURIComponent v.render)).map
              (fun p => formEncode p.1 ++ '=' :: formEncode p.2))),
        basePathStr⟩) ∧
    ((∀ kv ∈ qs, kv.2 = none) →
      createUrl t ps qs = .ok ⟨substAll ps t, basePathStr⟩) := by
  have hbq := buildQuery_eq_filterMap qs
  constructor
  · unfold createUrl
    rw [hok, hbq]
    by_cases hp :
        (qs.filterMap fun kv => kv.2.map fun v => (kv.1, encodeURIComponent v.render)) = []
    · rw [hp]
      simp [serializeSearchParams]
    · have hlen := List.length_pos.mpr hp
      simp [hp, hlen, serializeSearchParams]
  · intro hall
    have hnil :
        (qs.filterMap fun kv => kv.2.map fun v => (kv.1, encodeURIComponent v.render)) = [] := by
      apply List.filterMap_eq_nil_iff.mpr
      intro kv hkv
      rw [hall kv hkv]
      rfl
    unfold createUrl
    rw [hok, hbq, hnil]
    simp

/-- C2 witness: the spec scenario — one defined and one `undefined` query
entry on a placeholder-free template produce a single appended pair, and a
fully `undefined` record appends nothing. -/
theorem c2_witness :
    checkParams (extractParams "/tasks".data) [] = none ∧
    createUrl "/tasks".data []
        [("from".data, some (JsValue.str "2020-01-01".data)), ("to".data, none)] =
      .ok ⟨"/tasks?from=2020-01-01".data, basePathStr⟩ ∧
    createUrl "/tasks".data [] [("to".data, none)] = .ok ⟨"/tasks".data, basePathStr⟩ := by
  refine ⟨by decide, ?_, ?_⟩
  · have h := (c2_query_double_encoding "/tasks".data []
      [("from".data, some (JsValue.str "2020-01-01".data)), ("to".data, none)] (by decide)).1
    exact h.trans (by rfl)
  · exact (c2_query_double_encoding "/tasks".data [] [("to".data, none)] (by decide)).2
      (by decide)

/-- C3 counterexample: the template `\x7ba\x7bb\x7d\x7bb\x7d` has the two
distinct placeholder names `a\x7bb` and `b`, and the record supplies a
string for each, yet the produced path still contains a `\x7b...\x7d`
token (its extraction is nonempty) because the `b` entry is substituted
into the middle of the other placeholder's token first. -/
theorem c3_counterexample :
    (∀ n ∈ extractParams "\x7ba\x7bb\x7d\x7bb\x7d".data,
      isValidPathParam
        (lookupA [("b".data, JsValue.str "x".data), ("a\x7bb".data, JsValue.str "y".data)] n) =
        true) ∧
    (extractParams "\x7ba\x7bb\x7d\x7bb\x7d".data).Nodup ∧
    createUrl "\x7ba\x7bb\x7d\x7bb\x7d".data
        [("b".data, JsValue.str "x".data), ("a\x7bb".data, JsValue.str "y".data)] [] =
      .ok ⟨"\x7bax\x7bb\x7d".data, basePathStr⟩ ∧
    extractParams "\x7bax\x7bb\x7d".data ≠ [] :=
  ⟨by decide, by decide, rfl, by decide⟩

/-- C3 amended: on a well-formed template (brace-free literals alternating
with simple placeholders) whose placeholder names are distinct, with a
record of brace-free keys supplying a string-or-number value for every
placeholder, `createUrl` succeeds against the fixed base address; its path
part is exactly the template with every placeholder replaced by the
`encodeURIComponent`-encoded string form of its own looked-up value, no
placeholder token remains extractable from it, and a template without
placeholders is passed through unchanged. -/
theorem c3_complete_substitution (segs : List Seg) (ps : List (Str × JsValue))
    (qs : List (Str × Option JsValue))
    (hv : validSegs segs = true)
    (hnd : (holeNames segs).Nodup)
    (hkeys : ∀ p ∈ ps, braceFree p.1 = true)
    (hcomplete : ∀ n ∈ holeNames segs, isValidPathParam (lookupA ps n) = true) :
    ∃ u, createUrl (renderSegs segs) ps qs = .ok u ∧
      u.base = basePathStr ∧
      (∃ q, u.rel = renderSegs (mapLookup ps segs) ++ q ∧ (q = [] ∨ q.head? = some '?')) ∧
      extractParams (renderSegs (mapLookup ps segs)) = [] ∧
      (holeNames segs = [] → renderSegs (mapLookup ps segs) = renderSegs segs) := by
  have hex : extractParams (renderSegs segs) = holeNames segs := extract_render segs hv
  have hck : checkParams (extractParams (renderSegs segs)) ps = none := by
    rw [hex]
    exact checkParams_none_of_all ps _ hcomplete
  have hsub : substAll ps (renderSegs segs) = renderSegs (mapLookup ps segs) := by
    rw [substAll_render ps segs hv hkeys, substSegs_eq_mapLookup ps segs hnd]
  have hmvalid : validSegs (mapLookup ps segs) = true := validSegs_mapLookup ps segs hv
  have hmnames : holeNames (mapLookup ps segs) = [] :=
    holeNames_mapLookup_complete ps segs
      (fun n hn => isSome_of_validPathParam _ (hcomplete n hn))
  refine ⟨⟨substAll ps (renderSegs segs) ++
      (if (buildQuery qs).length > 0
        then '?' :: serializeSearchParams (buildQuery qs) else []), basePathStr⟩, ?_, rfl,
    ⟨(if (buildQuery qs).length > 0
        then '?' :: serializeSearchParams (buildQuery qs) else []), by rw [hsub], ?_⟩, ?_, ?_⟩
  · unfold createUrl
    rw [hck]
    by_cases hq : (buildQuery qs).length > 0
    · simp [hq]
    · simp [hq]
  · by_cases hq : (buildQuery qs).length > 0
    · right; simp [hq]
    · left; simp [hq]
  · rw [extract_render _ hmvalid, hmnames]
  · intro hnone
    rw [mapLookup_no_holes ps segs hnone]

/-- C3 witness: the spec scenario template with a single placeholder and a
complete record substitutes cleanly. -/
theorem c3_witness :
    ∃ u, createUrl
        (renderSegs [Seg.lit "/tasks/".data, Seg.hole "taskId".data, Seg.lit "/time".data])
        [("taskId".data, JsValue.str "abc".data)] [] = .ok u ∧
      u.base = basePathStr ∧
      (∃ q, u.rel = renderSegs (mapLookup [("taskId".data, JsValue.str "abc".data)]
          [Seg.lit "/tasks/".data, Seg.hole "taskId".data, Seg.lit "/time".data]) ++ q ∧
        (q = [] ∨ q.head? = some '?')) ∧
      extractParams (renderSegs (mapLookup [("taskId".data, JsValue.str "abc".data)]
        [Seg.lit "/tasks/".data, Seg.hole "taskId".data, Seg.lit "/time".data])) = [] ∧
      (holeNames [Seg.lit "/tasks/".data, Seg.hole "taskId".data, Seg.lit "/time".data] = [] →
        renderSegs (mapLookup [("taskId".data, JsValue.str "abc".data)]
            [Seg.lit "/tasks/".data, Seg.hole "taskId".data, Seg.lit "/time".data]) =
          renderSegs [Seg.lit "/tasks/".data, Seg.hole "taskId".data, Seg.lit "/time".data]) :=
  c3_complete_substitution
    [Seg.lit "/tasks/".data, Seg.hole "taskId".data, Seg.lit "/time".data]
    [("taskId".data, JsValue.str "abc".data)] []
    (by decide) (by decide) (by decide) (by decide)

/-- C4: for every response the transport produces, `apiRequest` is the
response handler applied to that response; a status in `[200, 300)`
returns the JSON-decoded body unchanged for any decoder and declared type
(no shape validation), and any other status fails with the message
embedding the numeric status and the raw body text verbatim. -/
theorem c4_response_handling {T : Type} (decode : Str → T) (resp : FetchResponse) :
    (200 ≤ resp.status → resp.status < 300 →
      handleResponse decode resp = .ok (decode resp.body)) ∧
    (resp.status < 200 ∨ 300 ≤ resp.status →
      handleResponse decode resp = .error
        ("Status: ".data ++ (toString resp.status).data ++ ", Text: ".data ++
          apos :: resp.body ++ [apos])) ∧
    (∀ transport method apiKey url payload,
      apiRequest decode transport method apiKey url payload =
        handleResponse decode (transport url (requestOptions method apiKey payload))) := by
  refine ⟨?_, ?_, fun _ _ _ _ _ => rfl⟩
  · intro h1 h2
    have hok : statusOkRange resp.status = true := by
      simp [statusOkRange, h1, h2]
    simp [handleResponse, hok]
  · intro h
    have hko : statusOkRange resp.status = false := by
      rcases h with h | h <;> simp [statusOkRange] <;> omega
    simp [handleResponse, hko, apiErrorMsg]

/-- C4 witness: a 204 response decodes its body, and the spec scenario —
status 404 with body `not found` — fails with the message embedding both. -/
theorem c4_witness :
    (handleResponse List.length ⟨204, "[]".data⟩ = .ok ("[]".data.length)) ∧
    (handleResponse List.length ⟨404, "not found".data⟩ = .error
      ("Status: ".data ++ (toString 404).data ++ ", Text: ".data ++
        apos :: "not found".data ++ [apos])) :=
  ⟨(c4_response_handling List.length ⟨204, "[]".data⟩).1 (by decide) (by decide),
    (c4_response_handling List.length ⟨404, "not found".data⟩).2.1 (Or.inr (by decide))⟩

/-- C5 counterexample: nothing enforces a non-empty API key — a client
constructed from the empty string is accepted and carries an empty
`X-Api-Key` header value, contradicting the claimed non-emptiness
invariant. -/
theorem c5_counterexample :
    (initClient []).headers = mkHeaders [] ∧
    lookupA (mkHeaders []) "X-Api-Key".data = some [] ∧
    ([] : Str).length = 0 :=
  ⟨rfl, by decide, rfl⟩

/-- C5 amended: the header record built at construction holds exactly a
JSON content type, the pinned protocol version `1.2`, and the
caller-supplied key stored verbatim (possibly empty — non-emptiness is not
validated); every dispatched request carries precisely this record and
`createUrl` leaves the client state untouched, so no operation changes a
header after construction. -/
theorem c5_headers_fixed (apiKey : Str) :
    lookupA (mkHeaders apiKey) "Content-Type".data = some "application/json".data ∧
    lookupA (mkHeaders apiKey) "X-Accept-Version".data = some versionStr ∧
    lookupA (mkHeaders apiKey) "X-Api-Key".data = some apiKey ∧
    (mkHeaders apiKey).length = 3 ∧
    (∀ method payload, (requestOptions method apiKey payload).headers = mkHeaders apiKey) ∧
    (∀ c path ps qs, (createUrlSt c path ps qs).2 = c) ∧
    (initClient apiKey).headers = mkHeaders apiKey :=
  ⟨rfl, rfl, rfl, rfl, fun _ _ => rfl, fun _ _ _ _ => rfl, rfl⟩

/-- C6: the options handed to the transport carry exactly the given method
and the client's fixed header record, and a body exactly when the payload
is defined, in which case the body is the JSON serialization of the
payload. -/
theorem c6_request_body_composition (method apiKey : Str) (payload : Option Json) :
    ((requestOptions method apiKey payload).method = method) ∧
    ((requestOptions method apiKey payload).headers = mkHeaders apiKey) ∧
    ((requestOptions method apiKey payload).body = none ↔ payload = none) ∧
    (∀ j, payload = some j →
      (requestOptions method apiKey payload).body = some (Json.stringify j)) ∧
    (∀ {T : Type} (decode : Str → T) transport url,
      apiRequest decode transport method apiKey url payload =
        handleResponse decode (transport url (requestOptions method apiKey payload))) := by
  refine ⟨rfl, rfl, ?_, fun j hj => by rw [hj]; rfl, fun _ _ _ => rfl⟩
  cases payload <;> simp [requestOptions]

/-- C6 witness: a `POST` with the empty-object payload serializes it as the
body alongside the fixed headers, and an absent payload yields no body. -/
theorem c6_witness :
    ((requestOptions "POST".data "k".data (some (Json.obj []))).method = "POST".data ∧
      (requestOptions "POST".data "k".data (some (Json.obj []))).headers =
        mkHeaders "k".data ∧
      (requestOptions "POST".data "k".data (some (Json.obj []))).body =
        some (Json.stringify (Json.obj []))) ∧
    (requestOptions "DELETE".data "k".data none).body = none :=
  ⟨⟨(c6_request_body_composition "POST".data "k".data (some (Json.obj []))).1,
      (c6_request_body_composition "POST".data "k".data (some (Json.obj []))).2.1,
      (c6_request_body_composition "POST".data "k".data (some (Json.obj []))).2.2.2.1
        (Json.obj []) rfl⟩,
    (c6_request_body_composition "DELETE".data "k".data none).2.2.1.mpr rfl⟩

/-- C7 counterexample: at runtime a payload passed together with `GET` is
not ignored — the composed options do carry a body (the serialized
payload), so the dispatched request is not identical to a payload-free
`GET`. -/
theorem c7_counterexample :
    (requestOptions "GET".data "k".data (some Json.null)).body =
      some (Json.stringify Json.null) ∧
    (requestOptions "GET".data "k".data (some Json.null)).body ≠ none :=
  ⟨rfl, by simp [requestOptions]⟩

/-- C7 amended: the runtime dispatcher never consults the method when
composing the body — a payload supplied with `GET` is serialized exactly
as for any other method; only the type-level overloads, which give the
`GET` overload no payload parameter, keep GET calls body-free, so a GET
issued through the typed surface (payload absent) carries no body. -/
theorem c7_get_payload_not_ignored (apiKey : Str) (payload : Option Json) :
    (∀ m₁ m₂, (requestOptions m₁ apiKey payload).body =
      (requestOptions m₂ apiKey payload).body) ∧
    ((requestOptions "GET".data apiKey none).body = none) ∧
    (∀ j, payload = some j →
      (requestOptions "GET".data apiKey payload).body = some (Json.stringify j)) :=
  ⟨fun _ _ => rfl, rfl, fun j hj => by rw [hj]; rfl⟩

/-- C7 witness: with a `null` payload the composed `GET` body equals the
`POST` body (both the serialized payload), and a payload-free `GET` has
none. -/
theorem c7_witness :
    ((requestOptions "GET".data "k".data (some Json.null)).body =
      (requestOptions "POST".data "k".data (some Json.null)).body) ∧
    ((requestOptions "GET".data "k".data none).body = none) ∧
    ((requestOptions "GET".data "k".data (some Json.null)).body =
      some (Json.stringify Json.null)) :=
  ⟨(c7_get_payload_not_ignored "k".data (some Json.null)).1 "GET".data "POST".data,
    (c7_get_payload_not_ignored "k".data none).2.1,
    (c7_get_payload_not_ignored "k".data (some Json.null)).2.2 Json.null rfl⟩

/-- C8 counterexample: on the template `\x7ba\x7bk\x7d\x7ba\x7bk\x7d`
(placeholder name `a\x7bk`, extracted twice) the complete record produces
`v\x7ba\x7bk\x7d`, but appending the extra entry `k` — a name that is not
an extracted placeholder — changes the output to `v\x7baw`, because the
literal token `\x7bk\x7d` happens to occur in the partially substituted
string.  Extra entries are therefore not always ignored. -/
theorem c8_counterexample :
    createUrl "\x7ba\x7bk\x7d\x7ba\x7bk\x7d".data
        [("a\x7bk".data, JsValue.str "v".data)] [] =
      .ok ⟨"v\x7ba\x7bk\x7d".data, basePathStr⟩ ∧
    createUrl "\x7ba\x7bk\x7d\x7ba\x7bk\x7d".data
        [("a\x7bk".data, JsValue.str "v".data), ("k".data, JsValue.str "w".data)] [] =
      .ok ⟨"v\x7baw".data, basePathStr⟩ ∧
    "k".data ∉ extractParams "\x7ba\x7bk\x7d\x7ba\x7bk\x7d".data ∧
    ("v\x7ba\x7bk\x7d".data : Str) ≠ "v\x7baw".data :=
  ⟨rfl, rfl, by decide, by decide⟩

/-- C8 amended: on a well-formed template, appending extra entries whose
brace-free names are not placeholder names of the template (the record's
own keys being brace-free as well) changes nothing: the URL — and the
error behaviour — of `createUrl` is identical with and without them. -/
theorem c8_extra_params_ignored (segs : List Seg) (ps extra : List (Str × JsValue))
    (qs : List (Str × Option JsValue))
    (hv : validSegs segs = true)
    (hkeys : ∀ p ∈ ps, braceFree p.1 = true)
    (hextra : ∀ q ∈ extra, braceFree q.1 = true ∧ q.1 ∉ holeNames segs) :
    createUrl (renderSegs segs) (ps ++ extra) qs = createUrl (renderSegs segs) ps qs := by
  have hnames : ∀ n ∈ extractParams (renderSegs segs),
      lookupA (ps ++ extra) n = lookupA ps n := by
    intro n hn
    rw [extract_render segs hv] at hn
    refine lookupA_append_extra ps extra n (fun q hq hEq => ?_)
    exact (hextra q hq).2 (hEq ▸ hn)
  have hck := checkParams_congr ps (ps ++ extra) (extractParams (renderSegs segs)) hnames
  have hsub : substAll (ps ++ extra) (renderSegs segs) = substAll ps (renderSegs segs) := by
    have hfold : substAll (ps ++ extra) (renderSegs segs) =
        substAll extra (substAll ps (renderSegs segs)) := by
      simp [substAll, List.foldl_append]
    rw [hfold, substAll_render ps segs hv hkeys]
    rw [substAll_extra_id extra (substSegs ps segs) (validSegs_substSegs ps segs hv)
      (fun q hq => ⟨(hextra q hq).1,
        fun hmem => (hextra q hq).2 (holeNames_substSegs_subset ps segs q.1 hmem)⟩)]
  unfold createUrl
  rw [hck]
  cases checkParams (extractParams (renderSegs segs)) ps with
  | some e => rfl
  | none => rw [hsub]

/-- C8 witness: appending an unrelated extra entry to a complete record on
a well-formed one-placeholder template leaves the result unchanged. -/
theorem c8_witness :
    createUrl (renderSegs [Seg.lit "/u/".data, Seg.hole "id".data])
        ([("id".data, JsValue.num 7)] ++ [("extra".data, JsValue.str "zz".data)]) [] =
      createUrl (renderSegs [Seg.lit "/u/".data, Seg.hole "id".data])
        [("id".data, JsValue.num 7)] [] :=
  c8_extra_params_ignored [Seg.lit "/u/".data, Seg.hole "id".data]
    [("id".data, JsValue.num 7)] [("extra".data, JsValue.str "zz".data)] []
    (by decide) (by decide) (by decide)

/-- C9: `createUrl` is deterministic and mutation-free — with the client
state threaded explicitly, any call returns the state unchanged, and a
repeated call with identical arguments (after the first call) returns the
identical result. -/
theorem c9_createUrl_pure (c : ClientState) (path : Str) (ps : List (Str × JsValue))
    (qs : List (Str × Option JsValue)) :
    (createUrlSt c path ps qs).2 = c ∧
    (createUrlSt ((createUrlSt c path ps qs).2) path ps qs).1 =
      (createUrlSt c path ps qs).1 :=
  ⟨rfl, rfl⟩

/-- C10 counterexample: on the template `\x7bx\x7d\x7bx\x7d` — the
placeholder `x` extracted twice — a record that supplies a valid value for
`x` but whose first entry is the brace-containing key `x\x7d\x7bx` yields
the URL `u`: the first `\x7bx\x7d` occurrence is not substituted with the
value of `x` and no later occurrence remains as a literal token. -/
theorem c10_counterexample :
    extractParams "\x7bx\x7d\x7bx\x7d".data = ["x".data, "x".data] ∧
    isValidPathParam
      (lookupA [("x\x7d\x7bx".data, JsValue.str "u".data), ("x".data, JsValue.str "v".data)]
        "x".data) = true ∧
    createUrl "\x7bx\x7d\x7bx\x7d".data
        [("x\x7d\x7bx".data, JsValue.str "u".data), ("x".data, JsValue.str "v".data)] [] =
      .ok ⟨"u".data, basePathStr⟩ ∧
    occursIn (braceTok "x".data) "u".data = false :=
  ⟨rfl, by decide, rfl, rfl⟩

/-- C10 amended: on a well-formed template whose extracted names are all
the duplicated placeholder `x`, with the single-entry record binding `x`
to a valid value, `createUrl` raises no error, substitutes only the first
`\x7bx\x7d` occurrence with the encoded value, and every later occurrence
survives in the produced path as a literal token. -/
theorem c10_first_occurrence_only (pre post : List Seg) (x : Str) (v : JsValue)
    (qs : List (Str × Option JsValue))
    (hv : validSegs (pre ++ Seg.hole x :: post) = true)
    (hpre : x ∉ holeNames pre)
    (hpost : x ∈ holeNames post)
    (honly : ∀ n ∈ holeNames (pre ++ Seg.hole x :: post), n = x)
    (hval : isValidPathParam (some v) = true) :
    ∃ u, createUrl (renderSegs (pre ++ Seg.hole x :: post)) [(x, v)] qs = .ok u ∧
      (∃ q, u.rel = renderSegs pre ++ encodeURIComponent v.render ++ renderSegs post ++ q ∧
        (q = [] ∨ q.head? = some '?')) ∧
      occursIn (braceTok x) (renderSegs post) = true := by
  have hlook : lookupA [(x, v)] x = some v := by
    simpa using lookupA_cons_self (x, v) []
  have hex := extract_render (pre ++ Seg.hole x :: post) hv
  have hck : checkParams (extractParams (renderSegs (pre ++ Seg.hole x :: post))) [(x, v)] =
      none := by
    rw [hex]
    refine checkParams_none_of_all _ _ (fun n hn => ?_)
    rw [honly n hn, hlook]
    exact hval
  have hxbf : braceFree x = true := by
    have hv2 := hv
    simp only [validSegs, List.all_append, List.all_cons, Bool.and_eq_true] at hv2
    have h1 := hv2.2.1
    simp only [Seg.valid, Bool.and_eq_true] at h1
    exact h1.1
  have hsub : substAll [(x, v)] (renderSegs (pre ++ Seg.hole x :: post)) =
      renderSegs pre ++ encodeURIComponent v.render ++ renderSegs post := by
    rw [substAll_render [(x, v)] _ hv (by intro p hp; simp at hp; rw [hp]; exact hxbf)]
    have hrepl : substSegs [(x, v)] (pre ++ Seg.hole x :: post) =
        pre ++ Seg.lit (encodeURIComponent v.render) :: post := by
      show replaceHole x (encodeURIComponent v.render) (pre ++ Seg.hole x :: post) = _
      exact replaceHole_split pre post x _ hpre
    rw [hrepl, renderSegs_append]
    simp [renderSegs]
  refine ⟨⟨substAll [(x, v)] (renderSegs (pre ++ Seg.hole x :: post)) ++
      (if (buildQuery qs).length > 0
        then '?' :: serializeSearchParams (buildQuery qs) else []), basePathStr⟩, ?_,
    ⟨(if (buildQuery qs).length > 0
        then '?' :: serializeSearchParams (buildQuery qs) else []), by rw [hsub], ?_⟩,
    occursIn_hole x post hpost⟩
  · unfold createUrl
    rw [hck]
    by_cases hq : (buildQuery qs).length > 0
    · simp [hq]
    · simp [hq]
  · by_cases hq : (buildQuery qs).length > 0
    · right; simp [hq]
    · left; simp [hq]

/-- C10 witness: the spec-shaped template `/a/\x7bx\x7d/b/\x7bx\x7d` with
`x` bound to a string substitutes the first occurrence only and keeps the
second as a literal token. -/
theorem c10_witness :
    ∃ u, createUrl
        (renderSegs ([Seg.lit "/a/".data] ++ Seg.hole "x".data ::
          [Seg.lit "/b/".data, Seg.hole "x".data]))
        [("x".data, JsValue.str "7".data)] [] = .ok u ∧
      (∃ q, u.rel = renderSegs [Seg.lit "/a/".data] ++
          encodeURIComponent (JsValue.str "7".data).render ++
          renderSegs [Seg.lit "/b/".data, Seg.hole "x".data] ++ q ∧
        (q = [] ∨ q.head? = some '?')) ∧
      occursIn (braceTok "x".data) (renderSegs [Seg.lit "/b/".data, Seg.hole "x".data]) =
        true :=
  c10_first_occurrence_only [Seg.lit "/a/".data] [Seg.lit "/b/".data, Seg.hole "x".data]
    "x".data (JsValue.str "7".data) []
    (by decide) (by decide) (by decide) (by decide) (by decide)

end Everhour
